import Mathlib

/-!
Verification of the HyProxy core against its specification.

The byte codec, framed-packet reader/writer, Connect-packet parser, QUIC
DCID extraction, DCID tracker and handler chain are embedded shallowly:
Go byte slices become `List Nat` (each element a byte value), machine
integers become `Nat` with explicit `% 2^w` truncation where the Go code
computes in `uint32`, and fallible readers return the same
`(value, bytesRead, error)` triples as the source, with `Option` standing
for the nullable Go `error`.
-/

/-! Byte codec, from `pkg/protohytale` (codec source file). -/

/-- Error values of the byte codec (`io.ErrUnexpectedEOF`,
`ErrVarIntTooLong`, `ErrStringTooLong`). -/
inductive CodecErr where
  | unexpectedEOF
  | varIntTooLong
  | stringTooLong
  deriving DecidableEq, Repr

/-- Loop body of `ReadVarInt`: `rem` is the number of loop iterations left
(the Go loop runs `i = 0..4`, so `rem = 5 - i`), the list holds
`data[i:]`, and `result`/`shift` are the accumulator variables. The
`% 4294967296` mirrors the Go `uint32` arithmetic of
`result |= uint32(b&0x7F) << shift`. -/
def readVarIntAux : Nat → List Nat → Nat → Nat → Nat × Nat × Option CodecErr
  | 0, _, _, _ => (0, 0, some .varIntTooLong)
  | _ + 1, [], _, _ => (0, 0, some .unexpectedEOF)
  | rem + 1, b :: rest, result, shift =>
    let result' := result ||| ((b &&& 127) <<< shift) % 4294967296
    if b &&& 128 = 0 then (result', 5 - rem, none)
    else readVarIntAux rem rest result' (shift + 7)

/-- `ReadVarInt` reads a Hytale VarInt (7-bit groups, low group first,
MSB continuation, at most 5 bytes). Returns `(value, bytesRead, error)`. -/
def ReadVarInt (data : List Nat) : Nat × Nat × Option CodecErr :=
  readVarIntAux 5 data 0 0

/-- `WriteVarInt` encodes a `uint32` as a Hytale VarInt
(`b := value & 0x7F; value >>= 7; if value != 0 { b |= 0x80 }` until
`value = 0`). -/
def WriteVarInt (value : Nat) : List Nat :=
  if h : value >>> 7 = 0 then [value &&& 127]
  else ((value &&& 127) ||| 128) :: WriteVarInt (value >>> 7)
termination_by value
decreasing_by
  rw [Nat.shiftRight_eq_div_pow] at h ⊢
  norm_num at h ⊢
  omega

/-- `VarIntSize` returns the number of bytes needed to encode a value. -/
def VarIntSize (value : Nat) : Nat :=
  if value < 128 then 1
  else if value < 16384 then 2
  else if value < 2097152 then 3
  else if value < 268435456 then 4
  else 5

/-- `MaxStringLength` from the codec. -/
def MaxStringLength : Nat := 256

/-- `ReadString` reads a VarInt-prefixed string (Go strings are byte
strings, embedded as `List Nat`). Returns `(string, bytesRead, error)`. -/
def ReadString (data : List Nat) : List Nat × Nat × Option CodecErr :=
  match ReadVarInt data with
  | (_, _, some e) => ([], 0, some e)
  | (len, n, none) =>
    if len > MaxStringLength then ([], 0, some .stringTooLong)
    else if n + len > data.length then ([], 0, some .unexpectedEOF)
    else ((data.drop n).take len, n + len, none)

/-- `WriteString` encodes a string with VarInt length prefix
(`uint32(len(s))` truncates to 32 bits). -/
def WriteString (s : List Nat) : List Nat :=
  WriteVarInt (s.length % 4294967296) ++ s

/-- `ReadUUID` reads a 16-byte UUID (returns the zero UUID on error, as
the Go `var uuid [16]byte` does). -/
def ReadUUID (data : List Nat) : List Nat × Nat × Option CodecErr :=
  if data.length < 16 then (List.replicate 16 0, 0, some .unexpectedEOF)
  else (data.take 16, 16, none)

/-- `ReadUint8` reads a single byte. -/
def ReadUint8 (data : List Nat) : Nat × Nat × Option CodecErr :=
  if data.length < 1 then (0, 0, some .unexpectedEOF)
  else (data.getD 0 0, 1, none)

/-- `ReadUint16LE` reads a little-endian `uint16`
(`binary.LittleEndian.Uint16`: `b[0] | b[1]<<8`). -/
def ReadUint16LE (data : List Nat) : Nat × Nat × Option CodecErr :=
  if data.length < 2 then (0, 0, some .unexpectedEOF)
  else (data.getD 0 0 ||| (data.getD 1 0 <<< 8), 2, none)

/-- Little-endian `uint32` of the first four list elements
(`binary.LittleEndian.Uint32`). -/
def uint32LEGet (l : List Nat) : Nat :=
  l.getD 0 0 ||| (l.getD 1 0 <<< 8) ||| (l.getD 2 0 <<< 16) ||| (l.getD 3 0 <<< 24)

/-- `ReadUint32LE` reads a little-endian `uint32`. -/
def ReadUint32LE (data : List Nat) : Nat × Nat × Option CodecErr :=
  if data.length < 4 then (0, 0, some .unexpectedEOF)
  else (uint32LEGet data, 4, none)

/-- `ReadUint64LE` reads a little-endian `uint64`. -/
def ReadUint64LE (data : List Nat) : Nat × Nat × Option CodecErr :=
  if data.length < 8 then (0, 0, some .unexpectedEOF)
  else (data.getD 0 0 ||| (data.getD 1 0 <<< 8) ||| (data.getD 2 0 <<< 16) |||
        (data.getD 3 0 <<< 24) ||| (data.getD 4 0 <<< 32) ||| (data.getD 5 0 <<< 40) |||
        (data.getD 6 0 <<< 48) ||| (data.getD 7 0 <<< 56), 8, none)

/-- `ReadInt32LE` reads a little-endian `int32`; the Go `int32(u)`
conversion reinterprets bit 31 as the sign. -/
def ReadInt32LE (data : List Nat) : Int × Nat × Option CodecErr :=
  if data.length < 4 then (0, 0, some .unexpectedEOF)
  else
    let u := uint32LEGet data
    ((if u < 2147483648 then (u : Int) else (u : Int) - 4294967296), 4, none)

/-- `ReadFloat32LE` reads a little-endian `float32`. The value is
represented by its IEEE-754 bit pattern (`math.Float32frombits` is a
bijection between `uint32` bit patterns and `float32` values, so nothing
about consumption or errors depends on the reinterpretation). -/
def ReadFloat32LE (data : List Nat) : Nat × Nat × Option CodecErr :=
  if data.length < 4 then (0, 0, some .unexpectedEOF)
  else (uint32LEGet data, 4, none)

/-- Subnormal normalization loop of `float16ToFloat32`
(`for mant&0x400 == 0 { mant <<= 1; exp-- }`). The Go loop is only ever
entered with `1 ≤ mant ≤ 1023`, for which at most 10 iterations occur, so
a fuel of 10 makes the recursion total without changing any reachable
behavior. -/
def normalizeSubnormal : Nat → Nat → Nat → Nat × Nat
  | 0, mant, exp => (mant, exp)
  | fuel + 1, mant, exp =>
    if mant &&& 1024 = 0 then normalizeSubnormal fuel (mant <<< 1) (exp - 1)
    else (mant, exp)

/-- `float16ToFloat32` converts an IEEE half-precision bit pattern to the
corresponding `float32` bit pattern. -/
def float16ToFloat32 (h : Nat) : Nat :=
  let sign := (h >>> 15) &&& 1
  let exp := (h >>> 10) &&& 31
  let mant := h &&& 1023
  if exp = 0 then
    if mant = 0 then sign <<< 31
    else
      let me := normalizeSubnormal 10 mant (127 - 14)
      (sign <<< 31) ||| ((me.2 <<< 23) % 4294967296) ||| (((me.1 &&& 1023) <<< 13) % 4294967296)
  else if exp = 31 then
    (sign <<< 31) ||| (255 <<< 23) ||| (mant <<< 13)
  else
    (sign <<< 31) ||| ((exp + 127 - 15) <<< 23) ||| (mant <<< 13)

/-- `ReadFloat16` reads a half-precision float (as a `float32` bit
pattern). -/
def ReadFloat16 (data : List Nat) : Nat × Nat × Option CodecErr :=
  if data.length < 2 then (0, 0, some .unexpectedEOF)
  else (float16ToFloat32 (data.getD 0 0 ||| (data.getD 1 0 <<< 8)), 2, none)

/-- `ReadBytes` reads `n` bytes from `data`. -/
def ReadBytes (data : List Nat) (n : Nat) : List Nat × Nat × Option CodecErr :=
  if data.length < n then ([], 0, some .unexpectedEOF)
  else (data.take n, n, none)

/-- `ReadHostAddress` reads a hostname string and a little-endian
`uint16` port. Returns `(host, port, bytesRead, error)`. -/
def ReadHostAddress (data : List Nat) : List Nat × Nat × Nat × Option CodecErr :=
  match ReadString data with
  | (_, _, some e) => ([], 0, 0, some e)
  | (host, n, none) =>
    if data.length < n + 2 then ([], 0, 0, some .unexpectedEOF)
    else (host, data.getD n 0 ||| (data.getD (n + 1) 0 <<< 8), n + 2, none)

/-! Framed packets, from `pkg/protohytale/packet.go`. -/

/-- Frame header size: 4 bytes length + 4 bytes packet ID. -/
def HeaderSize : Nat := 8

/-- Maximum frame payload size (16 MiB). -/
def MaxPacketSize : Nat := 16 * 1024 * 1024

/-- Errors of the framed-packet reader (`io.EOF`, `io.ErrUnexpectedEOF`,
`ErrPacketTooLarge`). -/
inductive PacketErr where
  | eof
  | unexpectedEOF
  | packetTooLarge
  deriving DecidableEq, Repr

/-- Decoded packet `{ID uint32, Data []byte}`. -/
structure Packet where
  id : Nat
  data : List Nat
  deriving DecidableEq, Repr

/-- `binary.LittleEndian.PutUint32`: the four bytes of `v mod 2^32`,
least significant first (`byte(v>>k)` truncates to 8 bits). -/
def putUint32LE (v : Nat) : List Nat :=
  [v % 256, (v >>> 8) % 256, (v >>> 16) % 256, (v >>> 24) % 256]

/-- `PacketReader.ReadPacket` over a byte stream, embedded as a function
of the stream's remaining bytes: the buffered reader's `ensureBytes n`
succeeds exactly when `n` bytes remain on the stream (EOF with an empty
buffer is `io.EOF`, EOF with a partial packet is `io.ErrUnexpectedEOF`).
On success returns the packet and the number of bytes consumed. -/
def PacketReader.ReadPacket (input : List Nat) : Except PacketErr (Packet × Nat) :=
  if input.length < HeaderSize then
    .error (if input.length = 0 then .eof else .unexpectedEOF)
  else
    let len := uint32LEGet input
    let packetID := uint32LEGet (input.drop 4)
    if len > MaxPacketSize then .error .packetTooLarge
    else if input.length < HeaderSize + len then .error .unexpectedEOF
    else .ok ({ id := packetID, data := (input.drop HeaderSize).take len }, HeaderSize + len)

/-- `PacketWriter.Write`: emits the 8-byte header (`uint32(len(data))`
then `id`, both little-endian) followed by the payload. -/
def PacketWriter.Write (id : Nat) (data : List Nat) : List Nat :=
  putUint32LE data.length ++ putUint32LE id ++ data

/-! Connect packet, from `pkg/protohytale/packets_connect.go`. -/

/-- Minimum size for a Connect packet. -/
def ConnectPacketMinSize : Nat := 82

/-- Error of `ParseConnect` (`ErrConnectTooShort`). -/
inductive ConnectErr where
  | connectTooShort
  deriving DecidableEq, Repr

/-- Parsed Connect packet (0x00000000). -/
structure ConnectPacket where
  protocolHash : List Nat
  clientType : Nat
  uuid : List Nat
  language : List Nat
  identityToken : List Nat
  username : List Nat
  referralData : List Nat
  deriving DecidableEq, Repr

/-- `ParseConnect` parses a Connect packet: below 82 bytes it fails with
`ErrConnectTooShort`; after the fixed 49-byte prefix, each string field
is parsed but a failure there just ends the parse early
("Partial parse OK" in the source). -/
def ParseConnect (data : List Nat) : Except ConnectErr ConnectPacket :=
  if data.length < ConnectPacketMinSize then .error .connectTooShort
  else
    let cp0 : ConnectPacket :=
      { protocolHash := data.take 32, clientType := data.getD 32 0,
        uuid := (data.drop 33).take 16,
        language := [], identityToken := [], username := [], referralData := [] }
    if 49 ≥ data.length then .ok cp0
    else match ReadString (data.drop 49) with
    | (_, _, some _) => .ok cp0
    | (lang, n1, none) =>
      let cp1 := { cp0 with language := lang }
      if 49 + n1 ≥ data.length then .ok cp1
      else match ReadString (data.drop (49 + n1)) with
      | (_, _, some _) => .ok cp1
      | (token, n2, none) =>
        let cp2 := { cp1 with identityToken := token }
        if 49 + n1 + n2 ≥ data.length then .ok cp2
        else match ReadString (data.drop (49 + n1 + n2)) with
        | (_, _, some _) => .ok cp2
        | (user, n3, none) =>
          let cp3 := { cp2 with username := user }
          if 49 + n1 + n2 + n3 < data.length then
            .ok { cp3 with referralData := data.drop (49 + n1 + n2 + n3) }
          else .ok cp3

/-! QUIC DCID extraction and the DCID tracker, from the handler package's
tracker source file. -/

/-- Lowercase hex digit character, as indexed from Go's
`hextable = "0123456789abcdef"`. -/
def hexDigitChar (n : Nat) : Char :=
  if n < 10 then Char.ofNat (48 + n) else Char.ofNat (87 + n)

/-- `hex.EncodeToString`: two lowercase hex digits per byte
(`hextable[b>>4]`, `hextable[b&0x0f]`). -/
def hexEncodeToString (bs : List Nat) : String :=
  String.mk (bs.foldr (fun b acc => hexDigitChar (b >>> 4) :: hexDigitChar (b &&& 15) :: acc) [])

/-- `parseQUICDCID` extracts the Destination Connection ID from a QUIC
packet: long header (bit 7 of byte 0 set), DCID length at offset 5, DCID
the next `dcidLen` bytes; hex-encoded, or `""` if unavailable. -/
def parseQUICDCID (packet : List Nat) : String :=
  if packet.length < 6 then ""
  else if packet.getD 0 0 &&& 128 = 0 then ""
  else
    let dcidLen := packet.getD 5 0
    if dcidLen = 0 ∨ packet.length < 6 + dcidLen then ""
    else hexEncodeToString ((packet.drop 6).take dcidLen)

/-- One observed `ReadFrom` completion on the tracker's wrapped
connection: the received bytes `p[:n]`, the reported remote address, and
whether the read returned an error. -/
structure ReadFromEvent where
  pkt : List Nat
  addr : String
  isError : Bool
  deriving DecidableEq

/-- State effect of one `dcidTracker.ReadFrom` call on the `byAddr` map
(modelled as an association list whose first binding for a key wins):
on an error-free read of more than 6 bytes bearing a parsable DCID, the
DCID is stored only if the address has no entry yet. -/
def dcidTracker.ReadFrom (byAddr : List (String × String)) (e : ReadFromEvent) :
    List (String × String) :=
  if e.isError = false ∧ e.pkt.length > 6 then
    if parseQUICDCID e.pkt ≠ "" then
      if (byAddr.lookup e.addr).isNone then (e.addr, parseQUICDCID e.pkt) :: byAddr
      else byAddr
    else byAddr
  else byAddr

/-- `dcidTracker` state after a sequence of `ReadFrom` events. -/
def dcidTracker.run (byAddr : List (String × String)) (es : List ReadFromEvent) :
    List (String × String) :=
  es.foldl dcidTracker.ReadFrom byAddr

/-- DCID parsed from the first DCID-bearing error-free packet of more
than 6 bytes received from address `a`, if any. -/
def firstDCID : List ReadFromEvent → String → Option String
  | [], _ => none
  | e :: es, a =>
    if e.isError = false ∧ e.pkt.length > 6 ∧ parseQUICDCID e.pkt ≠ "" ∧ e.addr = a
    then some (parseQUICDCID e.pkt)
    else firstDCID es a

/-! Handler chain, from `internal/handler/handler.go`. The Go package is
named `handler`; its declarations live in the `handler` namespace. -/

namespace handler

/-- Result action of a handler (`Continue`, `Handled`, `Drop`). -/
inductive Action where
  | Continue
  | Handled
  | Drop
  deriving DecidableEq, Repr

/-- `Result` returned by handler methods. -/
structure Result where
  action : Action
  error : Option String
  deriving DecidableEq, Repr

/-- Packet flow direction. -/
inductive Direction where
  | Inbound
  | Outbound
  deriving DecidableEq, Repr

/-- Modelled from the spec: the `Context` type itself is not under
`src/` (only its callers and its tests are). Spec §3: a key→value map
attached to a session, string keys, last write wins; the handler tests
show `GetString` returning `""` for an absent key. Only the string-typed
values and the stored initial packet are needed here. -/
structure Context where
  values : List (String × String)
  initialPacket : List Nat

/-- `Context.Set` stores a value (last write wins: the newest binding is
found first). -/
def Context.Set (ctx : Context) (k v : String) : Context :=
  { ctx with values := (k, v) :: ctx.values }

/-- `Context.GetString` returns the stored string or `""` when absent. -/
def Context.GetString (ctx : Context) (k : String) : String :=
  match ctx.values.lookup k with
  | some v => v
  | none => ""

/-- Handler interface: `OnConnect`, `OnPacket` and `OnDisconnect` hooks.
The Go hooks mutate the context through a pointer; here each hook
returns the updated context explicitly. -/
structure Handler where
  onConnect : Context → Result × Context
  onPacket : Context → List Nat → Direction → Result × Context
  onDisconnect : Context → Context

/-- `Chain.OnConnect` processes a new connection through the chain,
stopping at the first result whose action is not `Continue`; if the loop
finishes, no handler handled the connection and `Drop` is returned. -/
def Chain.OnConnect : List Handler → Context → Result × Context
  | [], ctx => ({ action := .Drop, error := none }, ctx)
  | h :: hs, ctx =>
    let rc := h.onConnect ctx
    if rc.1.action ≠ Action.Continue then rc else Chain.OnConnect hs rc.2

/-- `Chain.OnPacket` processes a packet through the chain with the same
stopping rule as `Chain.OnConnect`. -/
def Chain.OnPacket : List Handler → Context → List Nat → Direction → Result × Context
  | [], ctx, _, _ => ({ action := .Drop, error := none }, ctx)
  | h :: hs, ctx, packet, dir =>
    let rc := h.onPacket ctx packet dir
    if rc.1.action ≠ Action.Continue then rc else Chain.OnPacket hs rc.2 packet dir

/-- Modelled from the spec (§4.6), as the comparison definition for the
chain-semantics claim: execute handlers left-to-right; on `Continue`
proceed to the next; on `Handled` or `Drop` stop and return that result;
if all handlers return `Continue` (including the empty chain), return
`Drop`. -/
def chainConnectSpec : List Handler → Context → Result × Context
  | [], ctx => ({ action := .Drop, error := none }, ctx)
  | h :: hs, ctx =>
    match h.onConnect ctx with
    | (r, c) =>
      match r.action with
      | .Continue => chainConnectSpec hs c
      | .Handled => (r, c)
      | .Drop => (r, c)

/-- Modelled from the spec (§4.6): the `OnPacket` analogue of
`chainConnectSpec`. -/
def chainPacketSpec : List Handler → Context → List Nat → Direction → Result × Context
  | [], ctx, _, _ => ({ action := .Drop, error := none }, ctx)
  | h :: hs, ctx, packet, dir =>
    match h.onPacket ctx packet dir with
    | (r, c) =>
      match r.action with
      | .Continue => chainPacketSpec hs c packet dir
      | .Handled => (r, c)
      | .Drop => (r, c)

/-! Terminator handler, from `internal/handler/terminator.go`. -/

/-- Terminator handler state relevant to `OnConnect`: the one-shot
DCID → backend registry (`backends sync.Map`, modelled as an association
list whose first binding for a key wins) and the internal listener
address. -/
structure TerminatorHandler where
  backends : List (String × String)
  internalAddr : String

/-- `TerminatorHandler.OnConnect`: require a non-empty `backend` in the
context, extract the DCID from the stored initial packet, register
`DCID → backend`, redirect `backend` to the internal listener, and
return `Continue`; missing backend or DCID gives `Drop` with the
corresponding error. Returns the result together with the updated
handler state and context. -/
def TerminatorHandler.OnConnect (h : TerminatorHandler) (ctx : Context) :
    Result × TerminatorHandler × Context :=
  let backend := ctx.GetString "backend"
  if backend = "" then ({ action := .Drop, error := some "no backend" }, h, ctx)
  else
    let dcid := parseQUICDCID ctx.initialPacket
    if dcid = "" then ({ action := .Drop, error := some "no DCID in packet" }, h, ctx)
    else
      ({ action := .Continue, error := none },
       { h with backends := (dcid, backend) :: h.backends },
       ctx.Set "backend" h.internalAddr)

end handler

/-! Helper lemmas about bit operations on `Nat`. -/

/-- Bitwise or of values in disjoint bit ranges is addition. -/
theorem lor_mul_pow_disjoint (a b n : Nat) (h : a < 2 ^ n) :
    a ||| b * 2 ^ n = a + b * 2 ^ n := by
  apply Nat.eq_of_testBit_eq
  intro j
  rw [Nat.testBit_or]
  have hsum : a + b * 2 ^ n = 2 ^ n * b + a := by ring
  rw [hsum, Nat.testBit_mul_pow_two_add b h j]
  rw [show b * 2 ^ n = 2 ^ n * b from Nat.mul_comm b (2 ^ n), Nat.testBit_mul_pow_two]
  by_cases hj : j < n
  · simp [hj, Nat.not_le_of_lt hj]
  · have : a.testBit j = false :=
      Nat.testBit_lt_two_pow (Nat.lt_of_lt_of_le h (Nat.pow_le_pow_right (by omega) (by omega)))
    simp [hj, this, Nat.le_of_not_lt hj]

/-- Masking with `0x7F` is reduction modulo 128. -/
theorem and_127_eq_mod (x : Nat) : x &&& 127 = x % 128 := by
  have h := Nat.and_pow_two_sub_one_eq_mod x 7
  norm_num at h
  exact h

/-- A value below 128 has the `0x80` bit clear. -/
theorem and_128_eq_zero_of_lt {x : Nat} (h : x < 128) : x &&& 128 = 0 := by
  apply Nat.eq_of_testBit_eq
  intro j
  rw [Nat.testBit_and]
  show _ = Nat.testBit 0 j
  rw [Nat.zero_testBit]
  by_cases hj : j = 7
  · subst hj
    have : x.testBit 7 = false := Nat.testBit_lt_two_pow (by omega)
    simp [this]
  · have h128 : (128 : Nat) = 2 ^ 7 := by norm_num
    rw [h128, Nat.testBit_two_pow_of_ne (fun hc => hj hc.symm)]
    simp

/-- Setting the `0x80` bit makes it test as set. -/
theorem lor_128_and_128 (x : Nat) : (x ||| 128) &&& 128 = 128 := by
  rw [Nat.and_distrib_right]
  have h1 : (128 : Nat) &&& 128 = 128 := by decide
  rw [h1]
  have h128 : (128 : Nat) = 2 ^ 7 := by norm_num
  apply Nat.eq_of_testBit_eq
  intro j
  rw [Nat.testBit_or, Nat.testBit_and]
  by_cases hj : j = 7
  · subst hj; simp [h128, Nat.testBit_two_pow_self]
  · rw [h128, Nat.testBit_two_pow_of_ne (fun hc => hj hc.symm)]
    simp

/-- Setting the `0x80` bit does not change the low seven bits. -/
theorem lor_128_and_127 (x : Nat) : (x ||| 128) &&& 127 = x &&& 127 := by
  rw [Nat.and_distrib_right]
  have h1 : (128 : Nat) &&& 127 = 0 := by decide
  rw [h1, Nat.or_zero]

/-! Lemmas about the VarInt codec. -/

/-- Unfolding of `WriteVarInt` with the shift written as a division. -/
theorem writeVarInt_eq (v : Nat) :
    WriteVarInt v =
      if v < 128 then [v &&& 127] else ((v &&& 127) ||| 128) :: WriteVarInt (v / 128) := by
  have hs : v >>> 7 = v / 128 := by
    rw [Nat.shiftRight_eq_div_pow]
  rw [WriteVarInt]
  rcases Nat.lt_or_ge v 128 with hv | hv
  · rw [dif_pos (by rw [hs]; omega), if_pos hv]
  · rw [dif_neg (by rw [hs]; omega), if_neg (by omega), hs]

/-- The VarInt encoding is never empty. -/
theorem writeVarInt_length_pos (v : Nat) : 0 < (WriteVarInt v).length := by
  rw [writeVarInt_eq]
  split <;> simp

/-- The VarInt encoding has the length computed by `VarIntSize`
(for all values below `2^35`, and so for all `uint32` values). -/
theorem writeVarInt_length :
    ∀ v : Nat, v < 34359738368 → (WriteVarInt v).length = VarIntSize v := by
  intro v
  induction v using Nat.strong_induction_on with
  | _ v ih =>
    intro h
    rw [writeVarInt_eq]
    by_cases hv : v < 128
    · rw [if_pos hv]
      unfold VarIntSize
      rw [if_pos hv]
      rfl
    · rw [if_neg hv]
      rw [List.length_cons, ih (v / 128) (by omega) (by omega)]
      unfold VarIntSize
      split_ifs <;> omega

/-- In a VarInt encoding, exactly the last byte has the continuation bit
clear. -/
theorem writeVarInt_contbits :
    ∀ v i : Nat, i < (WriteVarInt v).length →
      (((WriteVarInt v).getD i 0) &&& 128 = 0 ↔ i = (WriteVarInt v).length - 1) := by
  intro v
  induction v using Nat.strong_induction_on with
  | _ v ih =>
    intro i hi
    rw [writeVarInt_eq] at hi ⊢
    by_cases hv : v < 128
    · rw [if_pos hv] at hi ⊢
      have hi0 : i = 0 := by simpa using hi
      subst hi0
      simp only [List.getD, List.length_cons, List.length_nil]
      rw [and_127_eq_mod]
      have : v % 128 &&& 128 = 0 := and_128_eq_zero_of_lt (Nat.mod_lt v (by omega))
      simp [this]
    · rw [if_neg hv] at hi ⊢
      have hpos := writeVarInt_length_pos (v / 128)
      cases i with
      | zero =>
        simp only [List.getD_cons_zero, List.length_cons]
        rw [lor_128_and_128]
        constructor
        · intro hc; omega
        · intro hc; omega
      | succ i =>
        simp only [List.getD_cons_succ, List.length_cons] at hi ⊢
        have hih := ih (v / 128) (by omega) i (by omega)
        rw [hih]
        omega

/-- Reading back a VarInt encoding (with any trailing bytes) from any
loop position: the accumulated low bits `acc` and the still-unread value
`v` combine to `acc + v * 2^shift`, and the reported byte count is the
loop index after the encoding plus one. -/
theorem readVarIntAux_writeVarInt :
    ∀ v rem acc shift : Nat, ∀ rest : List Nat,
      (WriteVarInt v).length ≤ rem → rem ≤ 5 →
      v * 2 ^ shift < 4294967296 → acc < 2 ^ shift →
      readVarIntAux rem (WriteVarInt v ++ rest) acc shift
        = (acc + v * 2 ^ shift, 5 - rem + (WriteVarInt v).length, none) := by
  intro v
  induction v using Nat.strong_induction_on with
  | _ v ih =>
    intro rem acc shift rest hlen hrem hv hacc
    rw [writeVarInt_eq] at hlen ⊢
    by_cases hv128 : v < 128
    · rw [if_pos hv128] at hlen ⊢
      simp only [List.length_cons, List.length_nil] at hlen
      obtain ⟨r, rfl⟩ : ∃ r, rem = r + 1 := ⟨rem - 1, by omega⟩
      simp only [List.cons_append, List.nil_append]
      rw [readVarIntAux]
      have hb : (v &&& 127) &&& 128 = 0 := by
        rw [and_127_eq_mod]
        exact and_128_eq_zero_of_lt (Nat.mod_lt v (by omega))
      rw [if_pos hb]
      have hb127 : (v &&& 127) &&& 127 = v &&& 127 := by
        rw [and_127_eq_mod, and_127_eq_mod, Nat.mod_mod_of_dvd]
        rfl
      have hvv : v &&& 127 = v := by rw [and_127_eq_mod]; omega
      rw [hb127, hvv, Nat.shiftLeft_eq, Nat.mod_eq_of_lt hv,
        lor_mul_pow_disjoint acc v shift hacc]
      refine congrArg (fun k => (acc + v * 2 ^ shift, k, (none : Option CodecErr))) ?_
      simp only [List.length_cons, List.length_nil]
      omega
    · rw [if_neg hv128] at hlen ⊢
      simp only [List.length_cons] at hlen
      obtain ⟨r, rfl⟩ : ∃ r, rem = r + 1 := ⟨rem - 1, by omega⟩
      simp only [List.cons_append]
      rw [readVarIntAux]
      have hb : ¬ (((v &&& 127) ||| 128) &&& 128 = 0) := by
        rw [lor_128_and_128]; omega
      rw [if_neg hb, lor_128_and_127]
      have hb127 : (v &&& 127) &&& 127 = v % 128 := by
        rw [and_127_eq_mod, and_127_eq_mod]
        omega
      rw [hb127]
      have hmodlt : v % 128 * 2 ^ shift < 4294967296 :=
        Nat.lt_of_le_of_lt (Nat.mul_le_mul_right _ (Nat.mod_le v 128)) hv
      rw [Nat.shiftLeft_eq, Nat.mod_eq_of_lt hmodlt,
        lor_mul_pow_disjoint acc (v % 128) shift hacc]
      have hstep : v / 128 * 2 ^ (shift + 7) < 4294967296 := by
        have h1 : v / 128 * 2 ^ (shift + 7) = v / 128 * 128 * 2 ^ shift := by
          rw [pow_add]; ring
        rw [h1]
        exact Nat.lt_of_le_of_lt
          (Nat.mul_le_mul_right _ (Nat.div_mul_le_self v 128)) hv
      have haccstep : acc + v % 128 * 2 ^ shift < 2 ^ (shift + 7) := by
        have h1 : (2 : Nat) ^ (shift + 7) = 128 * 2 ^ shift := by
          rw [pow_add]; ring
        have h2 : v % 128 * 2 ^ shift ≤ 127 * 2 ^ shift :=
          Nat.mul_le_mul_right _ (by omega)
        omega
      rw [ih (v / 128) (by omega) r (acc + v % 128 * 2 ^ shift) (shift + 7) rest
        (by omega) (by omega) hstep haccstep]
      have hval : acc + v % 128 * 2 ^ shift + v / 128 * 2 ^ (shift + 7)
          = acc + v * 2 ^ shift := by
        have h1 : v / 128 * 2 ^ (shift + 7) = v / 128 * 128 * 2 ^ shift := by
          rw [pow_add]; ring
        have h2 : v % 128 * 2 ^ shift + v / 128 * 128 * 2 ^ shift
            = (v % 128 + v / 128 * 128) * 2 ^ shift := by ring
        rw [h1, Nat.add_assoc, h2,
          show v % 128 + v / 128 * 128 = v by omega]
      rw [hval]
      refine congrArg (fun k => (acc + v * 2 ^ shift, k, (none : Option CodecErr))) ?_
      simp only [List.length_cons]
      omega

/-- C4: for every `v` in `[0, 2^32)`, `ReadVarInt (WriteVarInt v)`
succeeds and returns exactly `(v, VarIntSize v)`, the encoding's length
equals `VarIntSize v`, and only its last byte has the continuation bit
clear. -/
theorem varint_roundtrip_minimal (v : Nat) (hv : v < 4294967296) :
    ReadVarInt (WriteVarInt v) = (v, VarIntSize v, none) ∧
    (WriteVarInt v).length = VarIntSize v ∧
    ∀ i, i < (WriteVarInt v).length →
      (((WriteVarInt v).getD i 0) &&& 128 = 0 ↔ i = (WriteVarInt v).length - 1) := by
  have hlen := writeVarInt_length v (by omega)
  have hle5 : (WriteVarInt v).length ≤ 5 := by
    rw [hlen]; unfold VarIntSize; split_ifs <;> omega
  refine ⟨?_, hlen, writeVarInt_contbits v⟩
  have h := readVarIntAux_writeVarInt v 5 0 0 [] hle5 (by omega)
    (by simpa using hv) (by norm_num)
  rw [List.append_nil] at h
  unfold ReadVarInt
  rw [h, hlen]
  simp

/-- Witness for `varint_roundtrip_minimal` at `v = 300`. -/
theorem varint_roundtrip_minimal_witness :
    ReadVarInt (WriteVarInt 300) = (300, VarIntSize 300, none) ∧
    (WriteVarInt 300).length = VarIntSize 300 ∧
    ∀ i, i < (WriteVarInt 300).length →
      (((WriteVarInt 300).getD i 0) &&& 128 = 0 ↔ i = (WriteVarInt 300).length - 1) :=
  varint_roundtrip_minimal 300 (by norm_num)

/-- C10 counterexample: `[0,0,0,0,0]` is a 5-byte input whose fifth byte
has the continuation bit clear, yet `ReadVarInt` stops after the first
byte and reports 1 byte read, not 5. -/
theorem readVarInt_five_zeros_stops_early :
    ReadVarInt [0, 0, 0, 0, 0] = (0, 1, none) ∧ (ReadVarInt [0, 0, 0, 0, 0]).2.1 ≠ 5 := by
  decide

/-- C10 (amended): for every 5-byte input whose first four bytes have the
continuation bit set and whose fifth byte has it clear, `ReadVarInt`
returns the encoded mathematical value reduced modulo `2^32`, 5 bytes
read, and no error. -/
theorem readVarInt_noncanonical_five_bytes (b0 b1 b2 b3 b4 : Nat)
    (h0 : b0 < 256) (h1 : b1 < 256) (h2 : b2 < 256) (h3 : b3 < 256) (h4 : b4 < 256)
    (hc0 : b0 &&& 128 ≠ 0) (hc1 : b1 &&& 128 ≠ 0) (hc2 : b2 &&& 128 ≠ 0)
    (hc3 : b3 &&& 128 ≠ 0) (hc4 : b4 &&& 128 = 0) :
    ReadVarInt [b0, b1, b2, b3, b4] =
      (((b0 &&& 127) + (b1 &&& 127) * 2 ^ 7 + (b2 &&& 127) * 2 ^ 14 +
        (b3 &&& 127) * 2 ^ 21 + (b4 &&& 127) * 2 ^ 28) % 4294967296, 5, none) := by
  have hd0 : b0 &&& 127 ≤ 127 := Nat.and_le_right
  have hd1 : b1 &&& 127 ≤ 127 := Nat.and_le_right
  have hd2 : b2 &&& 127 ≤ 127 := Nat.and_le_right
  have hd3 : b3 &&& 127 ≤ 127 := Nat.and_le_right
  have hd4 : b4 &&& 127 ≤ 127 := Nat.and_le_right
  unfold ReadVarInt
  simp only [readVarIntAux]
  rw [if_neg hc0, if_neg hc1, if_neg hc2, if_neg hc3, if_pos hc4]
  have e0 : ((b0 &&& 127) <<< 0) % 4294967296 = b0 &&& 127 := by
    rw [Nat.shiftLeft_eq, pow_zero, mul_one]
    exact Nat.mod_eq_of_lt (by omega)
  have e1 : ((b1 &&& 127) <<< 7) % 4294967296 = (b1 &&& 127) * 2 ^ 7 := by
    rw [Nat.shiftLeft_eq]
    exact Nat.mod_eq_of_lt
      (Nat.lt_of_le_of_lt (Nat.mul_le_mul_right _ hd1) (by norm_num))
  have e2 : ((b2 &&& 127) <<< 14) % 4294967296 = (b2 &&& 127) * 2 ^ 14 := by
    rw [Nat.shiftLeft_eq]
    exact Nat.mod_eq_of_lt
      (Nat.lt_of_le_of_lt (Nat.mul_le_mul_right _ hd2) (by norm_num))
  have e3 : ((b3 &&& 127) <<< 21) % 4294967296 = (b3 &&& 127) * 2 ^ 21 := by
    rw [Nat.shiftLeft_eq]
    exact Nat.mod_eq_of_lt
      (Nat.lt_of_le_of_lt (Nat.mul_le_mul_right _ hd3) (by norm_num))
  have e4 : ((b4 &&& 127) <<< 28) % 4294967296 = (b4 &&& 127) % 16 * 2 ^ 28 := by
    rw [Nat.shiftLeft_eq, show (4294967296 : Nat) = 16 * 2 ^ 28 by norm_num,
      Nat.mul_mod_mul_right]
  rw [e0, e1, e2, e3, e4]
  rw [Nat.zero_or]
  rw [lor_mul_pow_disjoint (b0 &&& 127) (b1 &&& 127) 7
    (Nat.lt_of_le_of_lt hd0 (by norm_num))]
  rw [lor_mul_pow_disjoint _ (b2 &&& 127) 14 (by norm_num; omega)]
  rw [lor_mul_pow_disjoint _ (b3 &&& 127) 21 (by norm_num; omega)]
  rw [lor_mul_pow_disjoint _ ((b4 &&& 127) % 16) 28 (by norm_num; omega)]
  simp only [Prod.mk.injEq, and_true]
  norm_num
  omega

/-- Witness for `readVarInt_noncanonical_five_bytes` at
`[255, 255, 255, 255, 15]`. -/
theorem readVarInt_noncanonical_five_bytes_witness :
    ReadVarInt [255, 255, 255, 255, 15] =
      (((255 &&& 127) + (255 &&& 127) * 2 ^ 7 + (255 &&& 127) * 2 ^ 14 +
        (255 &&& 127) * 2 ^ 21 + (15 &&& 127) * 2 ^ 28) % 4294967296, 5, none) :=
  readVarInt_noncanonical_five_bytes 255 255 255 255 15
    (by decide) (by decide) (by decide) (by decide) (by decide)
    (by decide) (by decide) (by decide) (by decide) (by decide)

/-- C9: for every byte string `s` with `|s| ≤ 256`,
`ReadString (WriteString s)` succeeds and returns exactly
`(s, (WriteString s).length)`. -/
theorem string_roundtrip (s : List Nat) (hs : s.length ≤ 256) :
    ReadString (WriteString s) = (s, (WriteString s).length, none) := by
  have hmod : s.length % 4294967296 = s.length := Nat.mod_eq_of_lt (by omega)
  have hsize5 : (WriteVarInt s.length).length ≤ 5 := by
    rw [writeVarInt_length s.length (by omega)]
    unfold VarIntSize
    split_ifs <;> omega
  have hread := readVarIntAux_writeVarInt s.length 5 0 0 s hsize5 (by omega)
    (by simpa using Nat.lt_of_le_of_lt hs (by norm_num)) (by norm_num)
  unfold WriteString ReadString ReadVarInt
  rw [hmod, hread]
  simp only [pow_zero, mul_one, Nat.zero_add, Nat.sub_self]
  rw [if_neg (by unfold MaxStringLength; omega)]
  have hlen : (WriteVarInt s.length ++ s).length
      = (WriteVarInt s.length).length + s.length := List.length_append _ _
  rw [if_neg (by omega)]
  rw [List.drop_left, List.take_length]
  refine congrArg (fun k => (s, k, (none : Option CodecErr))) ?_
  omega

/-- Witness for `string_roundtrip` at `s = [104, 105]`. -/
theorem string_roundtrip_witness :
    ReadString (WriteString [104, 105]) = ([104, 105], (WriteString [104, 105]).length, none) :=
  string_roundtrip [104, 105] (by norm_num)

/-- Both error exits of the VarInt read loop report 0 bytes consumed. -/
theorem readVarIntAux_error_consumed :
    ∀ (rem : Nat) (data : List Nat) (acc shift : Nat),
      (readVarIntAux rem data acc shift).2.2 ≠ none →
      (readVarIntAux rem data acc shift).2.1 = 0 := by
  intro rem
  induction rem with
  | zero => intro data acc shift _; rfl
  | succ r ih =>
    intro data acc shift h
    cases data with
    | nil => rfl
    | cons b rest =>
      simp only [readVarIntAux] at h ⊢
      by_cases hb : b &&& 128 = 0
      · rw [if_pos hb] at h; simp at h
      · rw [if_neg hb] at h ⊢
        exact ih rest _ _ h

/-- C6: every byte-codec reader reports 0 bytes consumed whenever it
returns a non-nil error. -/
theorem codec_readers_error_atomic :
    (∀ data, (ReadVarInt data).2.2 ≠ none → (ReadVarInt data).2.1 = 0) ∧
    (∀ data, (ReadString data).2.2 ≠ none → (ReadString data).2.1 = 0) ∧
    (∀ data, (ReadUUID data).2.2 ≠ none → (ReadUUID data).2.1 = 0) ∧
    (∀ data, (ReadUint8 data).2.2 ≠ none → (ReadUint8 data).2.1 = 0) ∧
    (∀ data, (ReadUint16LE data).2.2 ≠ none → (ReadUint16LE data).2.1 = 0) ∧
    (∀ data, (ReadUint32LE data).2.2 ≠ none → (ReadUint32LE data).2.1 = 0) ∧
    (∀ data, (ReadUint64LE data).2.2 ≠ none → (ReadUint64LE data).2.1 = 0) ∧
    (∀ data, (ReadInt32LE data).2.2 ≠ none → (ReadInt32LE data).2.1 = 0) ∧
    (∀ data, (ReadFloat32LE data).2.2 ≠ none → (ReadFloat32LE data).2.1 = 0) ∧
    (∀ data, (ReadFloat16 data).2.2 ≠ none → (ReadFloat16 data).2.1 = 0) ∧
    (∀ data n, (ReadBytes data n).2.2 ≠ none → (ReadBytes data n).2.1 = 0) ∧
    (∀ data, (ReadHostAddress data).2.2.2 ≠ none → (ReadHostAddress data).2.2.1 = 0) := by
  refine ⟨?_, ?_, ?_, ?_, ?_, ?_, ?_, ?_, ?_, ?_, ?_, ?_⟩
  · intro data h
    exact readVarIntAux_error_consumed 5 data 0 0 h
  · intro data h
    unfold ReadString at h ⊢
    split at h
    · rfl
    · split at h
      · rename_i hgt
        rw [if_pos hgt]
      · rename_i hle
        rw [if_neg (by omega)]
        split at h
        · rename_i heof
          rw [if_pos heof]
        · exact absurd rfl h
  · intro data h
    unfold ReadUUID at h ⊢
    split at h <;> simp_all
  · intro data h
    unfold ReadUint8 at h ⊢
    split at h <;> simp_all
  · intro data h
    unfold ReadUint16LE at h ⊢
    split at h <;> simp_all
  · intro data h
    unfold ReadUint32LE at h ⊢
    split at h <;> simp_all
  · intro data h
    unfold ReadUint64LE at h ⊢
    split at h <;> simp_all
  · intro data h
    unfold ReadInt32LE at h ⊢
    split at h <;> simp_all
  · intro data h
    unfold ReadFloat32LE at h ⊢
    split at h <;> simp_all
  · intro data h
    unfold ReadFloat16 at h ⊢
    split at h <;> simp_all
  · intro data n h
    unfold ReadBytes at h ⊢
    split at h <;> simp_all
  · intro data h
    unfold ReadHostAddress at h ⊢
    split at h
    · rfl
    · split at h
      · rename_i hlt
        rw [if_pos hlt]
      · exact absurd rfl h

/-- Witness for `codec_readers_error_atomic` at concrete failing
inputs. -/
theorem codec_readers_error_atomic_witness :
    (ReadVarInt []).2.1 = 0 ∧ (ReadString [255, 255]).2.1 = 0 ∧ (ReadUUID []).2.1 = 0 ∧
    (ReadUint8 []).2.1 = 0 ∧ (ReadUint16LE []).2.1 = 0 ∧ (ReadUint32LE []).2.1 = 0 ∧
    (ReadUint64LE []).2.1 = 0 ∧ (ReadInt32LE []).2.1 = 0 ∧ (ReadFloat32LE []).2.1 = 0 ∧
    (ReadFloat16 []).2.1 = 0 ∧ (ReadBytes [] 3).2.1 = 0 ∧ (ReadHostAddress []).2.2.1 = 0 :=
  ⟨codec_readers_error_atomic.1 [] (by decide),
   codec_readers_error_atomic.2.1 [255, 255] (by decide),
   codec_readers_error_atomic.2.2.1 [] (by decide),
   codec_readers_error_atomic.2.2.2.1 [] (by decide),
   codec_readers_error_atomic.2.2.2.2.1 [] (by decide),
   codec_readers_error_atomic.2.2.2.2.2.1 [] (by decide),
   codec_readers_error_atomic.2.2.2.2.2.2.1 [] (by decide),
   codec_readers_error_atomic.2.2.2.2.2.2.2.1 [] (by decide),
   codec_readers_error_atomic.2.2.2.2.2.2.2.2.1 [] (by decide),
   codec_readers_error_atomic.2.2.2.2.2.2.2.2.2.1 [] (by decide),
   codec_readers_error_atomic.2.2.2.2.2.2.2.2.2.2.1 [] 3 (by decide),
   codec_readers_error_atomic.2.2.2.2.2.2.2.2.2.2.2 [] (by decide)⟩

/-- Shifting left by 8 multiplies by 256. -/
theorem shiftLeft_eq_mul_256 (x : Nat) : x <<< 8 = x * 256 := by
  rw [Nat.shiftLeft_eq]

/-- Shifting left by 16 multiplies by 65536. -/
theorem shiftLeft_eq_mul_65536 (x : Nat) : x <<< 16 = x * 65536 := by
  rw [Nat.shiftLeft_eq]

/-- Shifting left by 24 multiplies by 16777216. -/
theorem shiftLeft_eq_mul_16777216 (x : Nat) : x <<< 24 = x * 16777216 := by
  rw [Nat.shiftLeft_eq]

/-- Shifting right by 8 divides by 256. -/
theorem shiftRight_eq_div_256 (x : Nat) : x >>> 8 = x / 256 := by
  rw [Nat.shiftRight_eq_div_pow]

/-- Shifting right by 16 divides by 65536. -/
theorem shiftRight_eq_div_65536 (x : Nat) : x >>> 16 = x / 65536 := by
  rw [Nat.shiftRight_eq_div_pow]

/-- Shifting right by 24 divides by 16777216. -/
theorem shiftRight_eq_div_16777216 (x : Nat) : x >>> 24 = x / 16777216 := by
  rw [Nat.shiftRight_eq_div_pow]

/-- Disjoint or at an 8-bit boundary. -/
theorem lor_disjoint_256 (a b : Nat) (h : a < 256) : a ||| b * 256 = a + b * 256 := by
  have hh := lor_mul_pow_disjoint a b 8 (by norm_num; omega)
  norm_num at hh
  exact hh

/-- Disjoint or at a 16-bit boundary. -/
theorem lor_disjoint_65536 (a b : Nat) (h : a < 65536) : a ||| b * 65536 = a + b * 65536 := by
  have hh := lor_mul_pow_disjoint a b 16 (by norm_num; omega)
  norm_num at hh
  exact hh

/-- Disjoint or at a 24-bit boundary. -/
theorem lor_disjoint_16777216 (a b : Nat) (h : a < 16777216) :
    a ||| b * 16777216 = a + b * 16777216 := by
  have hh := lor_mul_pow_disjoint a b 24 (by norm_num; omega)
  norm_num at hh
  exact hh

/-- Reading back a 4-byte little-endian encoding (with any trailing
bytes) recovers the encoded `uint32`. -/
theorem uint32LE_roundtrip (v : Nat) (hv : v < 4294967296) (rest : List Nat) :
    uint32LEGet (putUint32LE v ++ rest) = v := by
  show (v % 256) ||| (((v >>> 8) % 256) <<< 8) ||| (((v >>> 16) % 256) <<< 16) |||
      (((v >>> 24) % 256) <<< 24) = v
  rw [shiftLeft_eq_mul_256, shiftLeft_eq_mul_65536, shiftLeft_eq_mul_16777216,
    shiftRight_eq_div_256, shiftRight_eq_div_65536, shiftRight_eq_div_16777216]
  rw [lor_disjoint_256 _ _ (Nat.mod_lt v (by norm_num))]
  rw [lor_disjoint_65536 _ _ (by omega)]
  rw [lor_disjoint_16777216 _ _ (by omega)]
  omega

/-- C5: writing a frame (little-endian `u32` length, little-endian `u32`
id, then payload) and reading it back yields exactly the same id and
payload, consuming exactly `8 + length` bytes, for every `uint32` id and
every payload of at most 16 MiB. -/
theorem frame_roundtrip (id : Nat) (data : List Nat) (hid : id < 4294967296)
    (hlen : data.length ≤ 16 * 1024 * 1024) :
    PacketReader.ReadPacket (PacketWriter.Write id data)
      = .ok ({ id := id, data := data }, 8 + data.length) := by
  have hinlen : (PacketWriter.Write id data).length = 8 + data.length := by
    unfold PacketWriter.Write putUint32LE
    rw [List.length_append, List.length_append]
    simp only [List.length_cons, List.length_nil]
  have hlen32 : data.length < 4294967296 := by omega
  unfold PacketReader.ReadPacket
  rw [if_neg (by rw [hinlen]; unfold HeaderSize; omega)]
  have hval1 : uint32LEGet (PacketWriter.Write id data) = data.length := by
    unfold PacketWriter.Write
    rw [List.append_assoc]
    exact uint32LE_roundtrip data.length hlen32 _
  have hdrop4 : (PacketWriter.Write id data).drop 4 = putUint32LE id ++ data := by
    unfold PacketWriter.Write
    rw [List.append_assoc]
    have h4 : (putUint32LE data.length).length = 4 := rfl
    rw [← h4, List.drop_left]
  have hval2 : uint32LEGet ((PacketWriter.Write id data).drop 4) = id := by
    rw [hdrop4]
    exact uint32LE_roundtrip id hid data
  rw [hval1, hval2]
  rw [if_neg (by unfold MaxPacketSize; omega)]
  rw [if_neg (by rw [hinlen]; unfold HeaderSize; omega)]
  have hdrop8 : (PacketWriter.Write id data).drop 8 = data := by
    unfold PacketWriter.Write
    have h8 : (putUint32LE data.length ++ putUint32LE id).length = 8 := rfl
    rw [← h8, List.drop_left]
  show Except.ok
      (Packet.mk id (((PacketWriter.Write id data).drop 8).take data.length),
        8 + data.length) = _
  rw [hdrop8, List.take_length]

/-- Witness for `frame_roundtrip` at `id = 7`, `data = [1, 2, 3]`. -/
theorem frame_roundtrip_witness :
    PacketReader.ReadPacket (PacketWriter.Write 7 [1, 2, 3])
      = Except.ok (({ id := 7, data := [1, 2, 3] } : Packet), 11) :=
  frame_roundtrip 7 [1, 2, 3] (by norm_num) (by norm_num)

/-- C7: `ParseConnect` returns the too-short error exactly when its input
is shorter than 82 bytes; any input of at least 82 bytes parses
successfully (malformed string fields only end the parse early). -/
theorem parseConnect_min_size (data : List Nat) :
    (ParseConnect data = .error .connectTooShort ↔ data.length < 82) ∧
    (82 ≤ data.length → (ParseConnect data).isOk = true) := by
  have hok : ¬data.length < 82 → (ParseConnect data).isOk = true := by
    intro hlen
    unfold ParseConnect
    rw [if_neg (by unfold ConnectPacketMinSize; omega)]
    repeat' split
    all_goals rfl
  refine ⟨⟨fun h => ?_, fun h => ?_⟩, fun h => hok (by omega)⟩
  · by_contra hlen
    have hisok := hok hlen
    rw [h] at hisok
    simp [Except.isOk, Except.toBool] at hisok
  · unfold ParseConnect
    rw [if_pos (by unfold ConnectPacketMinSize; omega)]

/-- Witness for `parseConnect_min_size`: an 82-byte all-`0xFF` input
parses (its string fields are malformed but that only ends the parse
early), and a 3-byte input fails with the too-short error. -/
theorem parseConnect_min_size_witness :
    (ParseConnect (List.replicate 82 255)).isOk = true ∧
    ParseConnect [1, 2, 3] = .error .connectTooShort :=
  ⟨(parseConnect_min_size (List.replicate 82 255)).2 (by simp),
   (parseConnect_min_size [1, 2, 3]).1.mpr (by norm_num)⟩

/-- Hex encoding of a non-empty byte string is a non-empty string. -/
theorem hexEncodeToString_ne_empty (bs : List Nat) (h : bs ≠ []) :
    hexEncodeToString bs ≠ "" := by
  cases bs with
  | nil => exact absurd rfl h
  | cons b rest =>
    unfold hexEncodeToString
    intro hc
    have hd := congrArg String.data hc
    simp at hd

/-- C1 counterexample: a long-header packet whose DCID length byte is 21
(outside `0 < L ≤ 20`) with 21 DCID bytes present makes `parseQUICDCID`
return a non-empty hex string, where the claim requires `""`. -/
theorem parseQUICDCID_len21_nonempty :
    parseQUICDCID (128 :: 0 :: 0 :: 0 :: 0 :: 21 :: List.replicate 21 7) ≠ "" ∧
    (128 :: 0 :: 0 :: 0 :: 0 :: 21 :: List.replicate 21 7 : List Nat).getD 5 0 = 21 := by
  constructor
  · show hexEncodeToString (((128 :: 0 :: 0 :: 0 :: 0 :: 21 ::
      List.replicate 21 7 : List Nat).drop 6).take 21) ≠ ""
    apply hexEncodeToString_ne_empty
    decide
  · rfl

/-- C1 (amended): `parseQUICDCID` returns the hex encoding of the DCID
exactly for packets with a long header (bit 7 of byte 0 set) whose DCID
length byte `L` satisfies `0 < L` — no 20-byte upper bound is enforced —
and whose remaining bytes contain at least `L` DCID bytes; in every
other case, in particular for any short-header packet, it returns the
empty string, and in the former case the result is non-empty. -/
theorem parseQUICDCID_characterization (pkt : List Nat) :
    (parseQUICDCID pkt =
      if 6 ≤ pkt.length ∧ pkt.getD 0 0 &&& 128 ≠ 0 ∧ 0 < pkt.getD 5 0 ∧
          6 + pkt.getD 5 0 ≤ pkt.length
        then hexEncodeToString ((pkt.drop 6).take (pkt.getD 5 0))
        else "") ∧
    (6 ≤ pkt.length → pkt.getD 0 0 &&& 128 ≠ 0 → 0 < pkt.getD 5 0 →
      6 + pkt.getD 5 0 ≤ pkt.length → parseQUICDCID pkt ≠ "") := by
  have hchar : parseQUICDCID pkt =
      if 6 ≤ pkt.length ∧ pkt.getD 0 0 &&& 128 ≠ 0 ∧ 0 < pkt.getD 5 0 ∧
          6 + pkt.getD 5 0 ≤ pkt.length
        then hexEncodeToString ((pkt.drop 6).take (pkt.getD 5 0))
        else "" := by
    unfold parseQUICDCID
    by_cases h1 : pkt.length < 6
    · rw [if_pos h1, if_neg (by rintro ⟨h6, _⟩; omega)]
    · rw [if_neg h1]
      by_cases h2 : pkt.getD 0 0 &&& 128 = 0
      · rw [if_pos h2, if_neg (by rintro ⟨_, hne, _⟩; exact hne h2)]
      · rw [if_neg h2]
        by_cases h3 : pkt.getD 5 0 = 0 ∨ pkt.length < 6 + pkt.getD 5 0
        · rw [if_pos h3,
            if_neg (by rintro ⟨_, _, hpos, hle⟩; rcases h3 with h3 | h3 <;> omega)]
        · have h3a : pkt.getD 5 0 ≠ 0 := fun hc => h3 (Or.inl hc)
          have h3b : ¬pkt.length < 6 + pkt.getD 5 0 := fun hc => h3 (Or.inr hc)
          rw [if_neg h3, if_pos ⟨by omega, h2, by omega, by omega⟩]
  refine ⟨hchar, fun h6 hbit hpos hle => ?_⟩
  rw [hchar, if_pos ⟨h6, hbit, hpos, hle⟩]
  apply hexEncodeToString_ne_empty
  intro hnil
  have hl : ((pkt.drop 6).take (pkt.getD 5 0)).length = 0 := by rw [hnil]; rfl
  rw [List.length_take, List.length_drop] at hl
  omega

/-- Witness for `parseQUICDCID_characterization` on a long-header packet
with a 1-byte DCID. -/
theorem parseQUICDCID_characterization_witness :
    parseQUICDCID [192, 0, 0, 0, 1, 1, 171] ≠ "" :=
  (parseQUICDCID_characterization [192, 0, 0, 0, 1, 1, 171]).2
    (by decide) (by decide) (by decide) (by decide)

/-- C2: a chain invocation runs handlers left-to-right, the first result
whose action is not `Continue` (i.e. `Handled` or `Drop`) is returned
with no later handler invoked, and if every handler returns `Continue`
(including the empty chain) the chain returns `Drop`: `Chain.OnConnect`
and `Chain.OnPacket` coincide with the spec's left-to-right scan. -/
theorem chain_first_non_continue (hs : List handler.Handler) (ctx : handler.Context) :
    handler.Chain.OnConnect hs ctx = handler.chainConnectSpec hs ctx ∧
    ∀ packet dir, handler.Chain.OnPacket hs ctx packet dir
      = handler.chainPacketSpec hs ctx packet dir := by
  induction hs generalizing ctx with
  | nil => exact ⟨rfl, fun _ _ => rfl⟩
  | cons h t ih =>
    constructor
    · rw [handler.Chain.OnConnect, handler.chainConnectSpec]
      rcases hscrut : h.onConnect ctx with ⟨⟨a, err⟩, c⟩
      cases a <;> simp [(ih c).1]
    · intro packet dir
      rw [handler.Chain.OnPacket, handler.chainPacketSpec]
      rcases hscrut : h.onPacket ctx packet dir with ⟨⟨a, err⟩, c⟩
      cases a <;> simp [(ih c).2 packet dir]

/-- C3: the terminator's `OnConnect` with a non-empty `backend` and a
parsable DCID registers `DCID → backend`, redirects the context's
`backend` to the internal listener address and returns `Continue`; with
an empty backend or no DCID it returns `Drop` and leaves the registry
unchanged. -/
theorem terminator_onconnect_contract (h : handler.TerminatorHandler)
    (ctx : handler.Context) :
    (ctx.GetString "backend" ≠ "" → parseQUICDCID ctx.initialPacket ≠ "" →
      (handler.TerminatorHandler.OnConnect h ctx).1.action = handler.Action.Continue ∧
      (handler.TerminatorHandler.OnConnect h ctx).2.1.backends.lookup
        (parseQUICDCID ctx.initialPacket) = some (ctx.GetString "backend") ∧
      (handler.TerminatorHandler.OnConnect h ctx).2.2.GetString "backend"
        = h.internalAddr) ∧
    (ctx.GetString "backend" = "" ∨ parseQUICDCID ctx.initialPacket = "" →
      (handler.TerminatorHandler.OnConnect h ctx).1.action = handler.Action.Drop ∧
      (handler.TerminatorHandler.OnConnect h ctx).2.1 = h) := by
  constructor
  · intro hb hd
    unfold handler.TerminatorHandler.OnConnect
    rw [if_neg hb, if_neg hd]
    refine ⟨rfl, ?_, ?_⟩
    · simp [List.lookup]
    · unfold handler.Context.Set handler.Context.GetString
      simp [List.lookup]
  · intro hor
    unfold handler.TerminatorHandler.OnConnect
    rcases hor with hb | hd
    · rw [if_pos hb]
      exact ⟨rfl, rfl⟩
    · by_cases hb : ctx.GetString "backend" = ""
      · rw [if_pos hb]
        exact ⟨rfl, rfl⟩
      · rw [if_neg hb, if_pos hd]
        exact ⟨rfl, rfl⟩

/-- Witness for `terminator_onconnect_contract` on a context carrying a
backend and a long-header initial packet with a 1-byte DCID. -/
theorem terminator_onconnect_contract_witness :
    (handler.TerminatorHandler.OnConnect ⟨[], "127.0.0.1:4444"⟩
        ⟨[("backend", "10.0.0.1:5520")], [192, 0, 0, 0, 1, 1, 171]⟩).1.action
      = handler.Action.Continue ∧
    (handler.TerminatorHandler.OnConnect ⟨[], "127.0.0.1:4444"⟩
        ⟨[("backend", "10.0.0.1:5520")], [192, 0, 0, 0, 1, 1, 171]⟩).2.1.backends.lookup
        (parseQUICDCID [192, 0, 0, 0, 1, 1, 171])
      = some (handler.Context.GetString
          ⟨[("backend", "10.0.0.1:5520")], [192, 0, 0, 0, 1, 1, 171]⟩ "backend") ∧
    (handler.TerminatorHandler.OnConnect ⟨[], "127.0.0.1:4444"⟩
        ⟨[("backend", "10.0.0.1:5520")], [192, 0, 0, 0, 1, 1, 171]⟩).2.2.GetString "backend"
      = "127.0.0.1:4444" :=
  (terminator_onconnect_contract ⟨[], "127.0.0.1:4444"⟩
    ⟨[("backend", "10.0.0.1:5520")], [192, 0, 0, 0, 1, 1, 171]⟩).1
    (by decide) (by decide)

/-- A single `ReadFrom` step never changes an existing tracker entry. -/
theorem dcidTracker_ReadFrom_preserves (t : List (String × String)) (e : ReadFromEvent)
    (a : String) (d : String) (h : t.lookup a = some d) :
    (dcidTracker.ReadFrom t e).lookup a = some d := by
  unfold dcidTracker.ReadFrom
  split
  · split
    · split
      · rename_i h1 h2 habs
        by_cases hae : a = e.addr
        · subst hae
          rw [h] at habs
          simp at habs
        · simp only [List.lookup]
          rw [show (a == e.addr) = false from beq_eq_false_iff_ne.mpr hae]
          exact h
      · exact h
    · exact h
  · exact h

/-- Folding `ReadFrom` steps never changes an existing tracker entry. -/
theorem dcidTracker_run_preserves :
    ∀ (es : List ReadFromEvent) (t : List (String × String)) (a d : String),
      t.lookup a = some d → (dcidTracker.run t es).lookup a = some d := by
  intro es
  induction es with
  | nil => intro t a d h; exact h
  | cons e es ih =>
    intro t a d h
    exact ih _ a d (dcidTracker_ReadFrom_preserves t e a d h)

/-- Starting from a state with no entry for `a`, running the tracker
records exactly the DCID of the first DCID-bearing packet from `a`. -/
theorem dcidTracker_run_from_absent :
    ∀ (es : List ReadFromEvent) (t : List (String × String)) (a : String),
      t.lookup a = none → (dcidTracker.run t es).lookup a = firstDCID es a := by
  intro es
  induction es with
  | nil =>
    intro t a h
    exact h
  | cons e es ih =>
    intro t a h
    simp only [dcidTracker.run, List.foldl_cons] at ih ⊢
    by_cases hcond : e.isError = false ∧ e.pkt.length > 6 ∧ parseQUICDCID e.pkt ≠ "" ∧
        e.addr = a
    · obtain ⟨hne, hlen, hdcid, haddr⟩ := hcond
      have hstep : (dcidTracker.ReadFrom t e).lookup a = some (parseQUICDCID e.pkt) := by
        unfold dcidTracker.ReadFrom
        rw [if_pos ⟨hne, hlen⟩, if_pos hdcid, if_pos (by rw [haddr, h]; rfl)]
        simp only [List.lookup]
        rw [show (a == e.addr) = true from beq_iff_eq.mpr haddr.symm]
      rw [firstDCID, if_pos ⟨hne, hlen, hdcid, haddr⟩]
      exact dcidTracker_run_preserves es _ a _ hstep
    · have hstep : (dcidTracker.ReadFrom t e).lookup a = none := by
        unfold dcidTracker.ReadFrom
        split
        · split
          · split
            · rename_i h1 h2 h3
              have haddr : e.addr ≠ a := fun hc => hcond ⟨h1.1, h1.2, h2, hc⟩
              simp only [List.lookup]
              rw [show (a == e.addr) = false from beq_eq_false_iff_ne.mpr
                (fun hc => haddr hc.symm)]
              exact h
            · exact h
          · exact h
        · exact h
      rw [firstDCID, if_neg hcond]
      exact ih (dcidTracker.ReadFrom t e) a hstep

/-- C8: over every sequence of `ReadFrom` steps, an existing tracker
entry for an address is never changed, and starting from the empty
tracker the entry recorded for an address is exactly the DCID parsed
from the first DCID-bearing packet received from that address. -/
theorem dcid_first_write_wins :
    (∀ (es : List ReadFromEvent) (t : List (String × String)) (a d : String),
      t.lookup a = some d → (dcidTracker.run t es).lookup a = some d) ∧
    (∀ (es : List ReadFromEvent) (a : String),
      (dcidTracker.run [] es).lookup a = firstDCID es a) :=
  ⟨dcidTracker_run_preserves, fun es a => dcidTracker_run_from_absent es [] a rfl⟩

/-- Witness for `dcid_first_write_wins`: a second DCID-bearing packet
from an address does not overwrite the latched entry, and the entry
after a run from empty is the first packet's DCID. -/
theorem dcid_first_write_wins_witness :
    (dcidTracker.run [("1.2.3.4:5", "ab")]
        [⟨[192, 0, 0, 0, 1, 1, 205], "1.2.3.4:5", false⟩]).lookup "1.2.3.4:5"
      = some "ab" ∧
    (dcidTracker.run []
        [⟨[192, 0, 0, 0, 1, 1, 205], "1.2.3.4:5", false⟩]).lookup "1.2.3.4:5"
      = firstDCID [⟨[192, 0, 0, 0, 1, 1, 205], "1.2.3.4:5", false⟩] "1.2.3.4:5" :=
  ⟨dcid_first_write_wins.1 [⟨[192, 0, 0, 0, 1, 1, 205], "1.2.3.4:5", false⟩]
      [("1.2.3.4:5", "ab")] "1.2.3.4:5" "ab" (by decide),
   dcid_first_write_wins.2 [⟨[192, 0, 0, 0, 1, 1, 205], "1.2.3.4:5", false⟩] "1.2.3.4:5"⟩
